import Mathlib

/-!
# Verification of the air-cargo platform's ID generator and dictionary option store

This file gives a shallow embedding of two subsystems of the repository:

* `app/utils/snowflake.py` — the Snowflake-style 64-bit unique ID generator
  (`SnowflakeGenerator`).  Wall-clock reads are modelled explicitly: each call to
  `generate_id` receives the millisecond timestamp observed by
  `_current_timestamp()` plus the (possibly empty) stream of further clock
  readings consumed by the `_wait_next_millis` busy-poll loop.

* `app/api/config.py` — the dictionary option store (`upsert_dict_option`,
  `_update_dict_option_internal`, `get_dict_options`,
  `delete_dict_option_by_id`) over the rows of `app/models/dict_option.py` and
  `app/models/dict_type.py`.  The SQLAlchemy session is modelled as an explicit
  store of rows; row ids and creation instants are modelled by a single
  monotonically increasing counter, and the snowflake group-id source by a
  fresh-id counter.

Theorems about these definitions settle the frozen claims about the spec.
-/

set_option maxHeartbeats 1000000

namespace Snowflake

/-- Timestamp origin used by the generator: 2024-01-01 00:00:00 UTC in ms. -/
def EPOCH : Int := 1704067200000

def TIMESTAMP_BITS : Nat := 41
def DATACENTER_ID_BITS : Nat := 5
def MACHINE_ID_BITS : Nat := 5
def SEQUENCE_BITS : Nat := 12

def MAX_DATACENTER_ID : Int := ((1 <<< DATACENTER_ID_BITS : Nat) : Int) - 1
def MAX_MACHINE_ID : Int := ((1 <<< MACHINE_ID_BITS : Nat) : Int) - 1
def MAX_SEQUENCE : Nat := (1 <<< SEQUENCE_BITS) - 1

def MACHINE_ID_SHIFT : Int := (SEQUENCE_BITS : Int)
def DATACENTER_ID_SHIFT : Int := ((SEQUENCE_BITS + MACHINE_ID_BITS : Nat) : Int)
def TIMESTAMP_SHIFT : Int :=
  ((SEQUENCE_BITS + MACHINE_ID_BITS + DATACENTER_ID_BITS : Nat) : Int)

theorem MAX_DATACENTER_ID_eq : MAX_DATACENTER_ID = 31 := rfl
theorem MAX_MACHINE_ID_eq : MAX_MACHINE_ID = 31 := rfl
theorem MAX_SEQUENCE_eq : MAX_SEQUENCE = 4095 := rfl
theorem MACHINE_ID_SHIFT_eq : MACHINE_ID_SHIFT = ((12 : Nat) : Int) := rfl
theorem DATACENTER_ID_SHIFT_eq : DATACENTER_ID_SHIFT = ((17 : Nat) : Int) := rfl
theorem TIMESTAMP_SHIFT_eq : TIMESTAMP_SHIFT = ((22 : Nat) : Int) := rfl

/-- Mutable state of `SnowflakeGenerator` (the lock is irrelevant for the
single-threaded sequential semantics the claims quantify over). -/
structure SnowflakeGenerator where
  datacenter_id : Int
  machine_id : Int
  sequence : Nat
  last_timestamp : Int
deriving Repr, DecidableEq

/-- `SnowflakeGenerator.__init__`: validates both node ids against `[0, 31]`
and starts with sequence `0` and `last_timestamp = -1`. -/
def SnowflakeGenerator.init (datacenter_id machine_id : Int) :
    Except String SnowflakeGenerator :=
  if datacenter_id > MAX_DATACENTER_ID ∨ datacenter_id < 0 then
    .error "datacenter_id must be in 0-31"
  else if machine_id > MAX_MACHINE_ID ∨ machine_id < 0 then
    .error "machine_id must be in 0-31"
  else
    .ok { datacenter_id := datacenter_id, machine_id := machine_id,
          sequence := 0, last_timestamp := -1 }

/-- The id assembly expression of `generate_id`:
`((timestamp - EPOCH) << 22) | (datacenter_id << 17) | (machine_id << 12) | sequence`,
with Python's arbitrary-precision `int` bitwise operators (`Int.lor`, `<<<`). -/
def assembleId (timestamp datacenter_id machine_id : Int) (sequence : Nat) : Int :=
  Int.lor
    (Int.lor
      (Int.lor ((timestamp - EPOCH) <<< TIMESTAMP_SHIFT)
        (datacenter_id <<< DATACENTER_ID_SHIFT))
      (machine_id <<< MACHINE_ID_SHIFT))
    (sequence : Int)

/-- `_wait_next_millis`: keeps reading the clock while the reading is `≤`
`last_timestamp`; returns the first strictly larger reading.  The argument list
is the stream of clock readings the loop observes; `none` models a trace on
which the loop has not yet terminated. -/
def waitNextMillis (last_timestamp : Int) : List Int → Option Int
  | [] => none
  | t :: rest =>
    if t ≤ last_timestamp then waitNextMillis last_timestamp rest else some t

/-- Failure modes of a `generate_id` call in this model. -/
inductive GenError where
  | clockRegression
  | clockStalled
deriving Repr, DecidableEq

/-- `SnowflakeGenerator.generate_id`.  `timestamp` is the value of the first
`_current_timestamp()` read; `laterReads` are the readings consumed by
`_wait_next_millis` in the sequence-overflow case. -/
def generate_id (g : SnowflakeGenerator) (timestamp : Int) (laterReads : List Int) :
    Except GenError (Int × SnowflakeGenerator) :=
  if timestamp < g.last_timestamp then
    .error .clockRegression
  else if timestamp = g.last_timestamp then
    if (g.sequence + 1) &&& MAX_SEQUENCE = 0 then
      match waitNextMillis g.last_timestamp laterReads with
      | none => .error .clockStalled
      | some t2 =>
        .ok (assembleId t2 g.datacenter_id g.machine_id ((g.sequence + 1) &&& MAX_SEQUENCE),
             { g with sequence := (g.sequence + 1) &&& MAX_SEQUENCE, last_timestamp := t2 })
    else
      .ok (assembleId timestamp g.datacenter_id g.machine_id ((g.sequence + 1) &&& MAX_SEQUENCE),
           { g with sequence := (g.sequence + 1) &&& MAX_SEQUENCE, last_timestamp := timestamp })
  else
    .ok (assembleId timestamp g.datacenter_id g.machine_id 0,
         { g with sequence := 0, last_timestamp := timestamp })

/-- Sequential single-threaded calls to `generate_id` on one instance, each
with its observed clock readings. -/
def run (g : SnowflakeGenerator) :
    List (Int × List Int) → Except GenError (List Int × SnowflakeGenerator)
  | [] => .ok ([], g)
  | (t, ws) :: rest =>
    match generate_id g t ws with
    | .error e => .error e
    | .ok (r, g1) =>
      match run g1 rest with
      | .error e => .error e
      | .ok (rs, g2) => .ok (r :: rs, g2)

theorem int_lor_coe (a b : Nat) : Int.lor (a : Int) (b : Int) = ((a ||| b : Nat) : Int) := rfl

theorem nat_or_shift_eq_add (n d m s : Nat)
    (hd : d ≤ 31) (hm : m ≤ 31) (hs : s ≤ 4095) :
    ((n <<< 22 ||| d <<< 17) ||| m <<< 12) ||| s
      = n * 2 ^ 22 + d * 2 ^ 17 + m * 2 ^ 12 + s := by
  rw [Nat.shiftLeft_eq, Nat.shiftLeft_eq, Nat.shiftLeft_eq]
  rw [Nat.mul_comm n, Nat.mul_comm d, Nat.mul_comm m]
  rw [← Nat.mul_add_lt_is_or (i := 22) (b := 2 ^ 17 * d) (by omega) n]
  have e1 : 2 ^ 22 * n + 2 ^ 17 * d = 2 ^ 17 * (2 ^ 5 * n + d) := by ring
  rw [e1, ← Nat.mul_add_lt_is_or (i := 17) (b := 2 ^ 12 * m) (by omega) _]
  have e2 : 2 ^ 17 * (2 ^ 5 * n + d) + 2 ^ 12 * m
      = 2 ^ 12 * (2 ^ 5 * (2 ^ 5 * n + d) + m) := by ring
  rw [e2, ← Nat.mul_add_lt_is_or (i := 12) (b := s) (by omega) _]

/-- Arithmetic characterization of the assembled id when the fields are in
their documented ranges. -/
theorem assembleId_eq (t dc mid : Int) (s : Nat)
    (ht : EPOCH ≤ t) (hdc0 : 0 ≤ dc) (hdc : dc ≤ 31)
    (hm0 : 0 ≤ mid) (hm : mid ≤ 31) (hs : s ≤ 4095) :
    assembleId t dc mid s
      = (t - EPOCH) * 2 ^ 22 + dc * 2 ^ 17 + mid * 2 ^ 12 + (s : Int) := by
  obtain ⟨n, hn⟩ : ∃ n : Nat, t - EPOCH = (n : Int) :=
    ⟨(t - EPOCH).toNat, (Int.toNat_of_nonneg (by omega)).symm⟩
  obtain ⟨d, hd⟩ : ∃ d : Nat, dc = (d : Int) :=
    ⟨dc.toNat, (Int.toNat_of_nonneg hdc0).symm⟩
  obtain ⟨m, hmm⟩ : ∃ m : Nat, mid = (m : Int) :=
    ⟨mid.toNat, (Int.toNat_of_nonneg hm0).symm⟩
  have hd31 : d ≤ 31 := by omega
  have hm31 : m ≤ 31 := by omega
  rw [assembleId, hn, hd, hmm, TIMESTAMP_SHIFT_eq, DATACENTER_ID_SHIFT_eq,
    MACHINE_ID_SHIFT_eq, Int.shiftLeft_coe_nat, Int.shiftLeft_coe_nat,
    Int.shiftLeft_coe_nat, int_lor_coe, int_lor_coe, int_lor_coe,
    nat_or_shift_eq_add n d m s hd31 hm31 hs]
  push_cast
  ring

/-- Generator states reachable under realistic clocks: node ids validated by
the constructor, sequence within 12 bits, and the last-used timestamp either
the initial `-1` or a post-`EPOCH` millisecond within the 41-bit window. -/
def WF (g : SnowflakeGenerator) : Prop :=
  0 ≤ g.datacenter_id ∧ g.datacenter_id ≤ MAX_DATACENTER_ID ∧
  0 ≤ g.machine_id ∧ g.machine_id ≤ MAX_MACHINE_ID ∧
  g.sequence ≤ MAX_SEQUENCE ∧
  (g.last_timestamp = -1 ∨
    (EPOCH ≤ g.last_timestamp ∧ g.last_timestamp < EPOCH + 2 ^ 41))

/-- A call input whose clock readings all lie in the representable window
(at or after the custom epoch, within the 41-bit timestamp field). -/
def goodInput (p : Int × List Int) : Prop :=
  (EPOCH ≤ p.1 ∧ p.1 < EPOCH + 2 ^ 41) ∧ ∀ w ∈ p.2, EPOCH ≤ w ∧ w < EPOCH + 2 ^ 41

/-- The id that the state `g` would re-assemble from its stored fields; after a
successful call this is exactly the id that call returned. -/
def lastId (g : SnowflakeGenerator) : Int :=
  assembleId g.last_timestamp g.datacenter_id g.machine_id g.sequence

theorem waitNextMillis_some {last t2 : Int} :
    ∀ {ws : List Int}, waitNextMillis last ws = some t2 → last < t2 ∧ t2 ∈ ws := by
  intro ws
  induction ws with
  | nil => intro h; simp [waitNextMillis] at h
  | cons w rest ih =>
    intro h
    rw [waitNextMillis] at h
    by_cases hw : w ≤ last
    · rw [if_pos hw] at h
      rcases ih h with ⟨h1, h2⟩
      exact ⟨h1, List.mem_cons_of_mem _ h2⟩
    · rw [if_neg hw] at h
      cases h
      exact ⟨by omega, List.mem_cons_self _ _⟩

theorem generate_id_step {g : SnowflakeGenerator} {t : Int} {ws : List Int}
    {r : Int} {g' : SnowflakeGenerator}
    (hg : WF g) (ht : EPOCH ≤ t ∧ t < EPOCH + 2 ^ 41)
    (hws : ∀ w ∈ ws, EPOCH ≤ w ∧ w < EPOCH + 2 ^ 41)
    (h : generate_id g t ws = .ok (r, g')) :
    WF g' ∧ (EPOCH ≤ g'.last_timestamp ∧ g'.last_timestamp < EPOCH + 2 ^ 41) ∧
    g'.datacenter_id = g.datacenter_id ∧ g'.machine_id = g.machine_id ∧
    r = lastId g' ∧ (EPOCH ≤ g.last_timestamp → lastId g < r) := by
  obtain ⟨hdc0, hdc, hm0, hm, hseq, hlast⟩ := hg
  rw [MAX_DATACENTER_ID_eq] at hdc
  rw [MAX_MACHINE_ID_eq] at hm
  rw [MAX_SEQUENCE_eq] at hseq
  rw [generate_id] at h
  by_cases hlt : t < g.last_timestamp
  · rw [if_pos hlt] at h; cases h
  rw [if_neg hlt] at h
  by_cases heq : t = g.last_timestamp
  · rw [if_pos heq] at h
    have hE : EPOCH ≤ g.last_timestamp := by
      rcases hlast with h1 | h1
      · exfalso
        have : (0:Int) < EPOCH := by norm_num [EPOCH]
        omega
      · exact h1.1
    have hEb : g.last_timestamp < EPOCH + 2 ^ 41 := by omega
    have hmask : (g.sequence + 1) &&& MAX_SEQUENCE = (g.sequence + 1) % 2 ^ 12 := by
      rw [MAX_SEQUENCE_eq]
      have := Nat.and_pow_two_sub_one_eq_mod (g.sequence + 1) 12
      simpa using this
    have hseqmask : (g.sequence + 1) &&& MAX_SEQUENCE ≤ MAX_SEQUENCE :=
      Nat.and_le_right
    have hseqmask' : (g.sequence + 1) &&& MAX_SEQUENCE ≤ 4095 := by
      rw [MAX_SEQUENCE_eq] at hseqmask; exact hseqmask
    by_cases hz : (g.sequence + 1) &&& MAX_SEQUENCE = 0
    · rw [if_pos hz] at h
      cases hwm : waitNextMillis g.last_timestamp ws with
      | none => rw [hwm] at h; cases h
      | some t2 =>
        rw [hwm] at h
        cases h
        obtain ⟨ht2, ht2mem⟩ := waitNextMillis_some hwm
        obtain ⟨ht2E, ht2b⟩ := hws t2 ht2mem
        have hmono : EPOCH ≤ g.last_timestamp →
            lastId g < assembleId t2 g.datacenter_id g.machine_id
              ((g.sequence + 1) &&& MAX_SEQUENCE) := by
          intro _
          rw [lastId]
          rw [assembleId_eq _ _ _ _ hE hdc0 hdc hm0 hm hseq,
            assembleId_eq _ _ _ _ ht2E hdc0 hdc hm0 hm hseqmask']
          have key : (g.last_timestamp - EPOCH + 1) * 2 ^ 22 ≤ (t2 - EPOCH) * 2 ^ 22 := by
            apply mul_le_mul_of_nonneg_right (by omega) (by norm_num)
          rw [add_mul] at key
          have hzn : (((g.sequence + 1) &&& MAX_SEQUENCE : Nat) : Int) = 0 := by
            rw [hz]; rfl
          rw [hzn]
          have hs' : (g.sequence : Int) ≤ 4095 := by exact_mod_cast hseq
          linarith
        exact ⟨⟨hdc0, hdc, hm0, hm, hseqmask, Or.inr ⟨ht2E, ht2b⟩⟩,
          ⟨ht2E, ht2b⟩, rfl, rfl, rfl, hmono⟩
    · rw [if_neg hz] at h
      cases h
      have hslt : g.sequence < 4095 := by
        rcases Nat.lt_or_ge g.sequence 4095 with h1 | h1
        · exact h1
        · exfalso
          have : g.sequence = 4095 := by omega
          rw [hmask, this] at hz
          simp at hz
      have hmv : (g.sequence + 1) &&& MAX_SEQUENCE = g.sequence + 1 := by
        rw [hmask, Nat.mod_eq_of_lt (by omega)]
      have hmono : EPOCH ≤ g.last_timestamp →
          lastId g < assembleId t g.datacenter_id g.machine_id
            ((g.sequence + 1) &&& MAX_SEQUENCE) := by
        intro _
        rw [lastId, heq, hmv]
        rw [assembleId_eq _ _ _ _ hE hdc0 hdc hm0 hm hseq,
          assembleId_eq _ _ _ _ hE hdc0 hdc hm0 hm (by omega)]
        have : ((g.sequence : Int)) < ((g.sequence + 1 : Nat) : Int) := by
          push_cast; omega
        linarith
      have hA : EPOCH ≤ t := by omega
      have hB : t < EPOCH + 2 ^ 41 := by omega
      exact ⟨⟨hdc0, hdc, hm0, hm, hseqmask, Or.inr ⟨hA, hB⟩⟩,
        ⟨hA, hB⟩, rfl, rfl, rfl, hmono⟩
  · rw [if_neg heq] at h
    cases h
    have htg : g.last_timestamp < t := by omega
    have hmono : EPOCH ≤ g.last_timestamp →
        lastId g < assembleId t g.datacenter_id g.machine_id 0 := by
      intro hE
      rw [lastId]
      rw [assembleId_eq _ _ _ _ hE hdc0 hdc hm0 hm hseq,
        assembleId_eq _ _ _ _ ht.1 hdc0 hdc hm0 hm (by omega)]
      have key : (g.last_timestamp - EPOCH + 1) * 2 ^ 22 ≤ (t - EPOCH) * 2 ^ 22 := by
        apply mul_le_mul_of_nonneg_right (by omega) (by norm_num)
      rw [add_mul] at key
      have hs' : (g.sequence : Int) ≤ 4095 := by exact_mod_cast hseq
      have h0 : ((0 : Nat) : Int) = 0 := rfl
      rw [h0]
      linarith
    have hS : (0 : Nat) ≤ MAX_SEQUENCE := Nat.zero_le _
    exact ⟨⟨hdc0, hdc, hm0, hm, hS, Or.inr ⟨ht.1, ht.2⟩⟩,
      ⟨ht.1, ht.2⟩, rfl, rfl, rfl, hmono⟩

theorem run_invariant :
    ∀ (ins : List (Int × List Int)) (g : SnowflakeGenerator) (rs : List Int)
      (g₂ : SnowflakeGenerator), WF g → (∀ p ∈ ins, goodInput p) →
      run g ins = .ok (rs, g₂) →
      WF g₂ ∧ g₂.datacenter_id = g.datacenter_id ∧ g₂.machine_id = g.machine_id ∧
      (∀ r ∈ rs, ∃ a : Int, ∃ s : Nat, 0 ≤ a ∧ a < 2 ^ 41 ∧ s ≤ 4095 ∧
        r = a * 2 ^ 22 + g.datacenter_id * 2 ^ 17 + g.machine_id * 2 ^ 12 + (s : Int)) ∧
      (EPOCH ≤ g.last_timestamp → List.Chain' (· < ·) (lastId g :: rs)) ∧
      List.Chain' (· < ·) rs := by
  intro ins
  induction ins with
  | nil =>
    intro g rs g₂ hg _ hrun
    rw [run] at hrun
    cases hrun
    exact ⟨hg, rfl, rfl, by simp, fun _ => List.chain'_singleton _, List.chain'_nil⟩
  | cons p rest ih =>
    intro g rs g₂ hg hins hrun
    obtain ⟨t, ws⟩ := p
    rw [run] at hrun
    split at hrun
    · cases hrun
    · rename_i r g1 hgen
      split at hrun
      · cases hrun
      · rename_i rs' g₂' hrest
        cases hrun
        have hgood := hins (t, ws) (List.mem_cons_self _ _)
        obtain ⟨hg1, hg1E, hdc1, hm1, hr, hmono⟩ :=
          generate_id_step hg hgood.1 hgood.2 hgen
        obtain ⟨hg2, hdc2, hm2, hchar, hchain1, _⟩ :=
          ih g1 rs' g₂ hg1 (fun q hq => hins q (List.mem_cons_of_mem _ hq)) hrest
        have hchainr : List.Chain' (· < ·) (r :: rs') := by
          rw [hr]
          exact hchain1 hg1E.1
        refine ⟨hg2, by rw [hdc2, hdc1], by rw [hm2, hm1], ?_, ?_, hchainr⟩
        · intro x hx
          rcases List.mem_cons.mp hx with hx1 | hx2
          · subst hx1
            obtain ⟨hdc0, hdcM, hm0, hmM, hseqM, _⟩ := hg1
            rw [MAX_DATACENTER_ID_eq] at hdcM
            rw [MAX_MACHINE_ID_eq] at hmM
            rw [MAX_SEQUENCE_eq] at hseqM
            refine ⟨g1.last_timestamp - EPOCH, g1.sequence, by omega, by omega, hseqM, ?_⟩
            rw [hr, lastId,
              assembleId_eq _ _ _ _ hg1E.1 hdc0 hdcM hm0 hmM hseqM, hdc1, hm1]
          · obtain ⟨a, s, h1, h2, h3, h4⟩ := hchar x hx2
            exact ⟨a, s, h1, h2, h3, by rw [h4, hdc1, hm1]⟩
        · intro hgE
          rw [List.chain'_cons]
          exact ⟨hmono hgE, hchainr⟩

/-- C2.  For every finite sequence of sequential single-threaded calls on one
generator instance in which every call succeeds (in particular no
clock-regression error is raised), and whose clock readings lie in the
representable 41-bit window at or after the epoch, the returned identifiers
are strictly increasing; each identifier also lies in `[0, 2^63)`, so the
sequence is strictly increasing when the values are compared as unsigned
64-bit integers. -/
theorem generate_id_run_strictly_increasing
    (g : SnowflakeGenerator) (ins : List (Int × List Int)) (rs : List Int)
    (g' : SnowflakeGenerator) (hg : WF g) (hins : ∀ p ∈ ins, goodInput p)
    (hrun : run g ins = .ok (rs, g')) :
    List.Chain' (· < ·) rs ∧ ∀ r ∈ rs, 0 ≤ r ∧ r < 2 ^ 63 := by
  obtain ⟨hg2, _, _, hchar, _, hchain⟩ := run_invariant ins g rs g' hg hins hrun
  refine ⟨hchain, ?_⟩
  intro r hr
  obtain ⟨a, s, h1, h2, h3, h4⟩ := hchar r hr
  obtain ⟨hdc0, hdcM, hm0, hmM, _, _⟩ := hg
  rw [MAX_DATACENTER_ID_eq] at hdcM
  rw [MAX_MACHINE_ID_eq] at hmM
  have hs : (s : Int) ≤ 4095 := by exact_mod_cast h3
  have hs0 : (0 : Int) ≤ (s : Int) := by positivity
  constructor
  · rw [h4]; positivity
  · rw [h4]; nlinarith

/-- Concrete instance of `generate_id_run_strictly_increasing`: a fresh
generator with node ids `(1, 1)` called twice in the same millisecond
(`EPOCH`) produces the strictly increasing ids `135168, 135169`. -/
theorem generate_id_run_strictly_increasing_witness :
    List.Chain' (· < ·) ([135168, 135169] : List Int) ∧
      ∀ r ∈ [(135168 : Int), 135169], 0 ≤ r ∧ r < 2 ^ 63 :=
  generate_id_run_strictly_increasing
    ⟨1, 1, 0, -1⟩ [(EPOCH, []), (EPOCH, [])] [135168, 135169] ⟨1, 1, 1, EPOCH⟩
    ⟨by decide, by decide, by decide, by decide, by decide, Or.inl rfl⟩
    (by
      intro p hp
      have : p = (EPOCH, []) := by
        rcases List.mem_cons.mp hp with h | h2
        · exact h
        · rcases List.mem_cons.mp h2 with h | h3
          · exact h
          · cases h3
      rw [this]
      exact ⟨⟨le_refl _, by decide⟩, by intro w hw; cases hw⟩)
    (by rfl)

/-- C3.  Branch behavior of `generate_id` on a success: if the current
millisecond equals the last-used timestamp the 12-bit sequence is incremented
(when it does not wrap) with the timestamp kept; when it wraps past 4095 the
generator busy-polls the clock (`waitNextMillis`) until the millisecond
advances and emits sequence 0 for that new millisecond; if the current
millisecond is strictly greater the sequence is reset to 0; and in every
non-error case the returned value is
`((t - EPOCH) << 22) | (datacenter_id << 17) | (machine_id << 12) | sequence`
(`assembleId`) at the final timestamp `t` and final sequence. -/
theorem generate_id_branches (g : SnowflakeGenerator) (t : Int) (ws : List Int)
    (r : Int) (g' : SnowflakeGenerator) (hseq : g.sequence ≤ MAX_SEQUENCE)
    (h : generate_id g t ws = .ok (r, g')) :
    r = assembleId g'.last_timestamp g.datacenter_id g.machine_id g'.sequence ∧
    g'.datacenter_id = g.datacenter_id ∧ g'.machine_id = g.machine_id ∧
    (t = g.last_timestamp ∧ g.sequence < MAX_SEQUENCE →
      g'.sequence = g.sequence + 1 ∧ g'.last_timestamp = t) ∧
    (t = g.last_timestamp ∧ g.sequence = MAX_SEQUENCE →
      g'.sequence = 0 ∧ g.last_timestamp < g'.last_timestamp ∧
      waitNextMillis g.last_timestamp ws = some g'.last_timestamp) ∧
    (g.last_timestamp < t → g'.sequence = 0 ∧ g'.last_timestamp = t) := by
  rw [MAX_SEQUENCE_eq] at hseq
  rw [generate_id] at h
  by_cases hlt : t < g.last_timestamp
  · rw [if_pos hlt] at h; cases h
  rw [if_neg hlt] at h
  have hmask : (g.sequence + 1) &&& MAX_SEQUENCE = (g.sequence + 1) % 2 ^ 12 := by
    rw [MAX_SEQUENCE_eq]
    simpa using Nat.and_pow_two_sub_one_eq_mod (g.sequence + 1) 12
  by_cases heq : t = g.last_timestamp
  · rw [if_pos heq] at h
    by_cases hz : (g.sequence + 1) &&& MAX_SEQUENCE = 0
    · rw [if_pos hz] at h
      cases hwm : waitNextMillis g.last_timestamp ws with
      | none => rw [hwm] at h; cases h
      | some t2 =>
        rw [hwm] at h
        cases h
        have h4095 : g.sequence = 4095 := by rw [hmask] at hz; omega
        obtain ⟨hgt, _⟩ := waitNextMillis_some hwm
        refine ⟨rfl, rfl, rfl, ?_, ?_, ?_⟩
        · intro hc
          rw [MAX_SEQUENCE_eq] at hc
          exact absurd hc.2 (by omega)
        · intro _
          exact ⟨hz, hgt, rfl⟩
        · intro hgt'
          exact absurd hgt' (by omega)
    · rw [if_neg hz] at h
      cases h
      have hlt4095 : g.sequence < 4095 := by rw [hmask] at hz; omega
      have hmv : (g.sequence + 1) &&& MAX_SEQUENCE = g.sequence + 1 := by
        rw [hmask]
        exact Nat.mod_eq_of_lt (by omega)
      refine ⟨rfl, rfl, rfl, ?_, ?_, ?_⟩
      · intro _
        exact ⟨hmv, rfl⟩
      · intro hc
        rw [MAX_SEQUENCE_eq] at hc
        exact absurd hc.2 (by omega)
      · intro hgt'
        exact absurd hgt' (by omega)
  · rw [if_neg heq] at h
    cases h
    refine ⟨rfl, rfl, rfl, ?_, ?_, ?_⟩
    · intro hc; exact absurd hc.1 heq
    · intro hc; exact absurd hc.1 heq
    · intro _; exact ⟨rfl, rfl⟩

/-- Concrete instance of `generate_id_branches`: a same-millisecond call with
sequence 5 returns sequence 6 at the same timestamp, with the assembled id. -/
theorem generate_id_branches_witness :
    (135174 : Int) = assembleId EPOCH 1 1 6 ∧
    (1 : Int) = 1 ∧ (1 : Int) = 1 ∧
    (EPOCH = EPOCH ∧ 5 < MAX_SEQUENCE → (6 : Nat) = 5 + 1 ∧ EPOCH = EPOCH) ∧
    (EPOCH = EPOCH ∧ 5 = MAX_SEQUENCE →
      (6 : Nat) = 0 ∧ EPOCH < EPOCH ∧ waitNextMillis EPOCH [] = some EPOCH) ∧
    (EPOCH < EPOCH → (6 : Nat) = 0 ∧ EPOCH = EPOCH) :=
  generate_id_branches ⟨1, 1, 5, EPOCH⟩ EPOCH [] 135174 ⟨1, 1, 6, EPOCH⟩
    (by decide) rfl

/-- C5.  When the observed wall-clock millisecond is strictly less than the
generator's last-used timestamp, `generate_id` fails with the clock-regression
error and returns no identifier (the error is decided per call, before any
sequence/timestamp state is consulted to assemble an id). -/
theorem clock_regression_fatal (g : SnowflakeGenerator) (t : Int) (ws : List Int)
    (h : t < g.last_timestamp) :
    generate_id g t ws = .error .clockRegression := by
  rw [generate_id, if_pos h]

/-- Concrete instance of `clock_regression_fatal`: timestamp one millisecond
behind the last-used timestamp. -/
theorem clock_regression_fatal_witness :
    generate_id ⟨1, 1, 0, EPOCH⟩ (EPOCH - 1) [] = .error .clockRegression :=
  clock_regression_fatal _ _ _ (by decide)

theorem init_ok {d m : Int} {g : SnowflakeGenerator}
    (h : SnowflakeGenerator.init d m = .ok g) :
    g = ⟨d, m, 0, -1⟩ ∧ 0 ≤ d ∧ d ≤ 31 ∧ 0 ≤ m ∧ m ≤ 31 := by
  rw [SnowflakeGenerator.init] at h
  by_cases h1 : d > MAX_DATACENTER_ID ∨ d < 0
  · rw [if_pos h1] at h; cases h
  rw [if_neg h1] at h
  by_cases h2 : m > MAX_MACHINE_ID ∨ m < 0
  · rw [if_pos h2] at h; cases h
  rw [if_neg h2] at h
  cases h
  rw [MAX_DATACENTER_ID_eq] at h1
  rw [MAX_MACHINE_ID_eq] at h2
  exact ⟨rfl, by omega, by omega, by omega, by omega⟩

/-- C4.  Two generator instances whose `(datacenter_id, machine_id)` pairs are
distinct (each component validated to `[0, 31]` at construction) never return
equal identifiers across any finite successful call sequences: the node bits
land in disjoint positions and the sequence and node fields cannot overflow
into the neighboring bit fields. -/
theorem distinct_nodes_never_collide
    (d1 m1 d2 m2 : Int) (g1 g2 g1' g2' : SnowflakeGenerator)
    (ins1 ins2 : List (Int × List Int)) (rs1 rs2 : List Int)
    (h1 : SnowflakeGenerator.init d1 m1 = .ok g1)
    (h2 : SnowflakeGenerator.init d2 m2 = .ok g2)
    (hne : (d1, m1) ≠ (d2, m2))
    (hins1 : ∀ p ∈ ins1, goodInput p) (hins2 : ∀ p ∈ ins2, goodInput p)
    (hr1 : run g1 ins1 = .ok (rs1, g1'))
    (hr2 : run g2 ins2 = .ok (rs2, g2')) :
    ∀ r1 ∈ rs1, ∀ r2 ∈ rs2, r1 ≠ r2 := by
  obtain ⟨hg1eq, hd10, hd1M, hm10, hm1M⟩ := init_ok h1
  obtain ⟨hg2eq, hd20, hd2M, hm20, hm2M⟩ := init_ok h2
  subst hg1eq
  subst hg2eq
  have hWF1 : WF ⟨d1, m1, 0, -1⟩ :=
    ⟨hd10, by rw [MAX_DATACENTER_ID_eq]; exact hd1M, hm10,
     by rw [MAX_MACHINE_ID_eq]; exact hm1M, Nat.zero_le _, Or.inl rfl⟩
  have hWF2 : WF ⟨d2, m2, 0, -1⟩ :=
    ⟨hd20, by rw [MAX_DATACENTER_ID_eq]; exact hd2M, hm20,
     by rw [MAX_MACHINE_ID_eq]; exact hm2M, Nat.zero_le _, Or.inl rfl⟩
  obtain ⟨_, _, _, hchar1, _, _⟩ := run_invariant ins1 _ rs1 g1' hWF1 hins1 hr1
  obtain ⟨_, _, _, hchar2, _, _⟩ := run_invariant ins2 _ rs2 g2' hWF2 hins2 hr2
  have hne' : d1 ≠ d2 ∨ m1 ≠ m2 := by
    by_contra hc
    push_neg at hc
    exact hne (by rw [hc.1, hc.2])
  intro r1 hm1' r2 hm2' heq
  obtain ⟨a1, s1, ha10, ha1b, hs1, he1⟩ := hchar1 r1 hm1'
  obtain ⟨a2, s2, ha20, ha2b, hs2, he2⟩ := hchar2 r2 hm2'
  have he1' : r1 = a1 * 2 ^ 22 + d1 * 2 ^ 17 + m1 * 2 ^ 12 + (s1 : Int) := he1
  have he2' : r2 = a2 * 2 ^ 22 + d2 * 2 ^ 17 + m2 * 2 ^ 12 + (s2 : Int) := he2
  omega

/-- Concrete instance of `distinct_nodes_never_collide`: nodes `(1,1)` and
`(1,2)` each emit one id at the same millisecond `EPOCH`; the ids differ. -/
theorem distinct_nodes_never_collide_witness : (135168 : Int) ≠ 139264 :=
  distinct_nodes_never_collide 1 1 1 2 ⟨1, 1, 0, -1⟩ ⟨1, 2, 0, -1⟩
    ⟨1, 1, 0, EPOCH⟩ ⟨1, 2, 0, EPOCH⟩
    [(EPOCH, [])] [(EPOCH, [])] [135168] [139264]
    rfl rfl (by decide)
    (by
      intro p hp
      have hp' : p = (EPOCH, []) := by
        rcases List.mem_cons.mp hp with h | h
        · exact h
        · cases h
      rw [hp']
      exact ⟨⟨le_refl _, by decide⟩, by intro w hw; cases hw⟩)
    (by
      intro p hp
      have hp' : p = (EPOCH, []) := by
        rcases List.mem_cons.mp hp with h | h
        · exact h
        · cases h
      rw [hp']
      exact ⟨⟨le_refl _, by decide⟩, by intro w hw; cases hw⟩)
    rfl rfl 135168 (List.mem_cons_self _ _) 139264 (List.mem_cons_self _ _)

end Snowflake

namespace DictStore

/-- A row of the `dict_types` table (`app/models/dict_type.py`). -/
structure DictTypeRow where
  id : Nat
  type : String
  name : String
deriving Repr, DecidableEq

/-- A row of the `dict_options` table (`app/models/dict_option.py`).
`rowId` is the primary key; `created_at` is the creation instant.  Both are
drawn from one monotonically increasing counter, so that row ids and creation
times order rows identically to their insertion order. -/
structure DictOptionRow where
  rowId : Nat
  option_group_id : Int
  dict_type_id : Nat
  label : String
  value : String
  status : Bool
  created_at : Nat
deriving Repr, DecidableEq

/-- The relational store visible to the API handlers: the two tables, the
fresh row-id/creation counter, and the next group id the snowflake generator
will hand out (`generate_id()` freshness). -/
structure Store where
  types : List DictTypeRow
  options : List DictOptionRow
  fresh : Nat
  nextGroupId : Int
deriving Repr, DecidableEq

/-- Python `Union[str, List[str]]`, the type of `DictOptionUpsert.value`. -/
inductive PyValue where
  | str (s : String)
  | list (vs : List String)
deriving Repr, DecidableEq

/-- Iterating a Python value: a `str` iterates as its characters, each a
one-character string; a list iterates as its elements. -/
def PyValue.toPyList : PyValue → List String
  | .str s => s.toList.map (fun c => String.mk [c])
  | .list vs => vs

/-- The `DictOptionUpsert` request schema (`app/schemas/dict_option.py`).
`value` has no `min_items` bound, unlike `DictOptionCreate`/`DictOptionUpdate`. -/
structure DictOptionUpsert where
  dict_type : String
  label : String
  value : PyValue
  status : Bool
deriving Repr, DecidableEq

/-- The `DictOptionUpdate` schema: all fields optional; `value`, when present,
is a list of strings with `min_items=1`. -/
structure DictOptionUpdate where
  dict_type : Option String
  label : Option String
  value : Option (List String)
  status : Option Bool
deriving Repr, DecidableEq

/-- The grouped option record the handlers return (`option_id` is the group
id; `value` the ordered member value list). -/
structure OptionResult where
  dict_type : String
  label : String
  value : List String
  option_id : Int
  status : Bool
deriving Repr, DecidableEq

/-- Failure modes surfaced by the handlers: the typed `NotFoundException`,
a pydantic validation failure, and an unhandled Python `ValueError`. -/
inductive ApiError where
  | notFound (msg : String)
  | validationError
  | valueError
deriving Repr, DecidableEq

/-- Python truthiness of an optional string (`None` and `""` are falsy). -/
def optTruthy : Option String → Bool
  | some s => s != ""
  | none => false

/-- `list(dict.fromkeys(values))`: deduplicate preserving first occurrence. -/
def dedupFirst (xs : List String) : List String :=
  xs.foldl (fun acc v => if v ∈ acc then acc else acc ++ [v]) []

/-- The rows inserted by a `for value in values: db.add(DictOption(...))`
loop, with fresh ids/creation instants starting at `k`. -/
def buildRows (option_group_id : Int) (dict_type_id : Nat) (label : String)
    (status : Bool) : Nat → List String → List DictOptionRow
  | _, [] => []
  | k, v :: vs =>
    { rowId := k, option_group_id := option_group_id, dict_type_id := dict_type_id,
      label := label, value := v, status := status, created_at := k }
      :: buildRows option_group_id dict_type_id label status (k + 1) vs

/-- `order_by(DictOption.id)`. -/
def orderById (l : List DictOptionRow) : List DictOptionRow :=
  l.insertionSort (fun a b => a.rowId ≤ b.rowId)

/-- Display name of a dict type id (the `option.dict_type.type` relationship). -/
def typeNameOf (st : Store) (dict_type_id : Nat) : String :=
  ((st.types.find? (fun ty => ty.id == dict_type_id)).map (fun ty => ty.type)).getD ""

/-- `_update_dict_option_internal` (`app/api/config.py`).  The session's
pending in-place updates, deletes and inserts all take effect at the single
`db.commit()`; they touch disjoint rows (updates hit retained group rows,
deletes hit group rows whose value left the set, inserts are fresh rows), so
the commit is modelled by applying updates, then deletes, then appends. -/
def update_dict_option_internal (st : Store) (option_records : List DictOptionRow)
    (upd : DictOptionUpdate) : Except ApiError (Store × OptionResult) :=
  match option_records with
  | [] => .error (.notFound "dict option not found")
  | first_record :: _ =>
    let option_group_id := first_record.option_group_id
    let lookup : Except ApiError Nat :=
      if optTruthy upd.dict_type then
        match st.types.find? (fun ty => ty.type == upd.dict_type.getD "") with
        | some ty => .ok ty.id
        | none => .error (.notFound (upd.dict_type.getD ""))
      else .ok first_record.dict_type_id
    match lookup with
    | .error e => .error e
    | .ok new_dict_type_id =>
      let new_label := upd.label.getD first_record.label
      match upd.value with
      | some vs =>
        let unique_values := dedupFirst vs
        let existing_options :=
          st.options.filter (fun o => o.option_group_id == option_group_id)
        let existing_values := existing_options.map (fun o => o.value)
        let updated := st.options.map (fun o =>
          if o.option_group_id == option_group_id && unique_values.contains o.value &&
              (upd.status.isSome || optTruthy upd.dict_type || optTruthy upd.label) then
            { o with
              status := upd.status.getD o.status,
              dict_type_id :=
                if optTruthy upd.dict_type then new_dict_type_id else o.dict_type_id,
              label := if upd.label.isSome then new_label else o.label }
          else o)
        let afterDelete := updated.filter (fun o =>
          !(o.option_group_id == option_group_id && !unique_values.contains o.value))
        let to_create := unique_values.filter (fun v => !existing_values.contains v)
        let created := buildRows option_group_id new_dict_type_id new_label
          (upd.status.getD first_record.status) st.fresh to_create
        let st' : Store :=
          { st with options := afterDelete ++ created, fresh := st.fresh + to_create.length }
        let all_options :=
          orderById (st'.options.filter (fun o => o.option_group_id == option_group_id))
        .ok (st',
          { dict_type := typeNameOf st new_dict_type_id, label := new_label,
            value := all_options.map (fun o => o.value), option_id := option_group_id,
            status :=
              match all_options with
              | a :: _ => a.status
              | [] => upd.status.getD first_record.status })
      | none =>
        let updated := st.options.map (fun o =>
          if option_records.any (fun q => q.rowId == o.rowId) &&
              (optTruthy upd.dict_type || optTruthy upd.label || upd.status.isSome) then
            { o with
              dict_type_id :=
                if optTruthy upd.dict_type then new_dict_type_id else o.dict_type_id,
              label := if upd.label.isSome then new_label else o.label,
              status := upd.status.getD o.status }
          else o)
        let st' : Store := { st with options := updated }
        let all_options :=
          orderById (st'.options.filter (fun o => o.option_group_id == option_group_id))
        .ok (st',
          { dict_type := typeNameOf st new_dict_type_id, label := new_label,
            value := all_options.map (fun o => o.value), option_id := option_group_id,
            status :=
              match all_options with
              | a :: _ => a.status
              | [] => upd.status.getD first_record.status })

/-- `upsert_dict_option` (`POST /dict-options`): look up the type by key,
then the first option row with that type and label.  If one exists, reuse the
update logic on all rows of its group (pydantic rejects a bare string or an
empty list when re-validating `value` against `DictOptionUpdate`'s
`List[str], min_items=1`).  Otherwise deduplicate the iterated value and
create one row per unique value, all sharing one freshly generated group id. -/
def upsert_dict_option (st : Store) (p : DictOptionUpsert) :
    Except ApiError (Store × OptionResult) :=
  match st.types.find? (fun ty => ty.type == p.dict_type) with
  | none => .error (.notFound p.dict_type)
  | some dt =>
    match st.options.find? (fun o => o.dict_type_id == dt.id && o.label == p.label) with
    | some existing_option =>
      match p.value with
      | .str _ => .error .validationError
      | .list vs =>
        if vs.isEmpty then .error .validationError
        else
          let option_records :=
            st.options.filter (fun o => o.option_group_id == existing_option.option_group_id)
          update_dict_option_internal st option_records
            { dict_type := none, label := none, value := some vs, status := some p.status }
    | none =>
      let unique_values := dedupFirst p.value.toPyList
      let option_group_id := st.nextGroupId
      let new_options := buildRows option_group_id dt.id p.label p.status st.fresh unique_values
      let st' : Store :=
        { st with
            options := st.options ++ new_options,
            fresh := st.fresh + unique_values.length,
            nextGroupId := st.nextGroupId + 1 }
      .ok (st',
        { dict_type := dt.type, label := p.label,
          value := new_options.map (fun o => o.value),
          option_id := option_group_id, status := p.status })

/-- Query parameters of `GET /dict-options`. -/
structure DictOptionQuery where
  dict_type : Option String
  status : Option Bool
  page : Nat
  page_size : Nat
deriving Repr, DecidableEq

/-- One logical item of the grouped listing. -/
structure GroupItem where
  dict_type : String
  label : String
  value : List String
  option_id : Int
  status : Bool
deriving Repr, DecidableEq

/-- Row filter of `get_dict_options`: the inner join with `dict_types` plus
the optional type-key and status filters. -/
def rowPasses (st : Store) (q : DictOptionQuery) (o : DictOptionRow) : Bool :=
  match st.types.find? (fun ty => ty.id == o.dict_type_id) with
  | none => false
  | some ty =>
    (if optTruthy q.dict_type then ty.type == q.dict_type.getD "" else true) &&
    (match q.status with
     | some b => o.status == b
     | none => true)

/-- The filtered rows in `order_by(created_at.desc())` order. -/
def sortedRows (st : Store) (q : DictOptionQuery) : List DictOptionRow :=
  (st.options.filter (rowPasses st q)).insertionSort (fun a b => b.created_at ≤ a.created_at)

/-- One step of the grouping loop of `get_dict_options`: a Python dict keyed
by `option_group_id` (insertion-ordered), appending each row's value to its
group's value list. -/
def addRow (st : Store) (acc : List GroupItem) (o : DictOptionRow) : List GroupItem :=
  if acc.any (fun gi => gi.option_id == o.option_group_id) then
    acc.map (fun gi =>
      if gi.option_id == o.option_group_id then { gi with value := gi.value ++ [o.value] }
      else gi)
  else
    acc ++ [{ dict_type := typeNameOf st o.dict_type_id, label := o.label,
              value := [o.value], option_id := o.option_group_id, status := o.status }]

/-- `list(grouped_options.values())`. -/
def groupedList (st : Store) (q : DictOptionQuery) : List GroupItem :=
  (sortedRows st q).foldl (addRow st) []

/-- `get_dict_options` (`GET /dict-options`): group the filtered rows, then
paginate the grouped list; `total` is the number of groups. -/
def get_dict_options (st : Store) (q : DictOptionQuery) : Nat × List GroupItem :=
  let option_list := groupedList st q
  let total := option_list.length
  let offset := (q.page - 1) * q.page_size
  (total, (option_list.drop offset).take q.page_size)

/-- Python `int(s)` on a string: optional sign followed by one or more
decimal digits; anything else raises `ValueError` (modelled as `none`). -/
def pyIntOfString (s : String) : Option Int :=
  let core : List Char → Option Nat := fun ds =>
    if ds ≠ [] ∧ ds.all (fun c => c.isDigit) then
      some (ds.foldl (fun a c => a * 10 + (c.toNat - 48)) 0)
    else none
  match s.toList with
  | '+' :: rest => (core rest).map (fun n => (n : Int))
  | '-' :: rest => (core rest).map (fun n => -(n : Int))
  | cs => (core cs).map (fun n => (n : Int))

/-- `delete_dict_option_by_id` (`DELETE /dict-options/by-option-id/` path):
`int(option_id)` is evaluated first (an invalid literal raises an unhandled
`ValueError` before any lookup); then all rows of that group are deleted, or
the typed `NotFoundException` is raised when no row matches. -/
def delete_dict_option_by_id (st : Store) (option_id : String) :
    Except ApiError (Store × Nat) :=
  match pyIntOfString option_id with
  | none => .error .valueError
  | some gid =>
    let option_records := st.options.filter (fun o => o.option_group_id == gid)
    if option_records.isEmpty then .error (.notFound option_id)
    else
      .ok ({ st with options := st.options.filter (fun o => !(o.option_group_id == gid)) },
           option_records.length)

theorem dedupFirst_loop_mem (xs : List String) :
    ∀ (acc : List String) (v : String),
      (v ∈ xs.foldl (fun acc v => if v ∈ acc then acc else acc ++ [v]) acc) ↔
        v ∈ acc ∨ v ∈ xs := by
  induction xs with
  | nil => intro acc v; simp
  | cons x xs ih =>
    intro acc v
    rw [List.foldl_cons, ih]
    by_cases hx : x ∈ acc
    · rw [if_pos hx]
      simp only [List.mem_cons]
      constructor
      · rintro (h | h)
        · exact Or.inl h
        · exact Or.inr (Or.inr h)
      · rintro (h | h | h)
        · exact Or.inl h
        · exact Or.inl (h ▸ hx)
        · exact Or.inr h
    · rw [if_neg hx]
      simp only [List.mem_append, List.mem_singleton, List.mem_cons]
      tauto

theorem mem_dedupFirst {v : String} {xs : List String} :
    v ∈ dedupFirst xs ↔ v ∈ xs := by
  rw [dedupFirst, dedupFirst_loop_mem]
  simp

theorem dedupFirst_ne_nil {xs : List String} (h : xs ≠ []) : dedupFirst xs ≠ [] := by
  obtain ⟨x, rest, rfl⟩ := List.exists_cons_of_ne_nil h
  intro hd
  have : x ∈ dedupFirst (x :: rest) := mem_dedupFirst.mpr (List.mem_cons_self _ _)
  rw [hd] at this
  cases this

theorem buildRows_fields {G : Int} {dtid : Nat} {lbl : String} {en : Bool} :
    ∀ (vs : List String) (k : Nat) (r : DictOptionRow),
      r ∈ buildRows G dtid lbl en k vs →
      r.option_group_id = G ∧ r.dict_type_id = dtid ∧ r.label = lbl ∧
        r.status = en ∧ r.value ∈ vs ∧ k ≤ r.rowId := by
  intro vs
  induction vs with
  | nil => intro k r hr; cases hr
  | cons v vs ih =>
    intro k r hr
    rw [buildRows] at hr
    rcases List.mem_cons.mp hr with h | h
    · subst h
      exact ⟨rfl, rfl, rfl, rfl, List.mem_cons_self _ _, le_refl _⟩
    · obtain ⟨h1, h2, h3, h4, h5, h6⟩ := ih (k + 1) r h
      exact ⟨h1, h2, h3, h4, List.mem_cons_of_mem _ h5, by omega⟩

theorem buildRows_map_value {G : Int} {dtid : Nat} {lbl : String} {en : Bool} :
    ∀ (vs : List String) (k : Nat),
      (buildRows G dtid lbl en k vs).map (fun o => o.value) = vs := by
  intro vs
  induction vs with
  | nil => intro k; rfl
  | cons v vs ih => intro k; rw [buildRows, List.map_cons, ih]

theorem buildRows_exists {G : Int} {dtid : Nat} {lbl : String} {en : Bool} :
    ∀ (vs : List String) (k : Nat) (v : String), v ∈ vs →
      ∃ r, r ∈ buildRows G dtid lbl en k vs ∧ r.value = v := by
  intro vs
  induction vs with
  | nil => intro k v hv; cases hv
  | cons w vs ih =>
    intro k v hv
    rcases List.mem_cons.mp hv with h | h
    · subst h
      exact ⟨_, List.mem_cons_self _ _, rfl⟩
    · obtain ⟨r, hr, hrv⟩ := ih (k + 1) v h
      exact ⟨r, List.mem_cons_of_mem _ hr, hrv⟩

theorem buildRows_sorted {G : Int} {dtid : Nat} {lbl : String} {en : Bool} :
    ∀ (vs : List String) (k : Nat),
      List.Sorted (fun a b : DictOptionRow => a.rowId ≤ b.rowId)
        (buildRows G dtid lbl en k vs) := by
  intro vs
  induction vs with
  | nil => intro k; exact List.sorted_nil
  | cons v vs ih =>
    intro k
    rw [buildRows]
    refine List.sorted_cons.mpr ⟨?_, ih (k + 1)⟩
    intro b hb
    have := (buildRows_fields vs (k + 1) b hb).2.2.2.2.2
    show k ≤ b.rowId
    omega

theorem orderById_buildRows {G : Int} {dtid : Nat} {lbl : String} {en : Bool}
    (vs : List String) (k : Nat) :
    orderById (buildRows G dtid lbl en k vs) = buildRows G dtid lbl en k vs :=
  List.Sorted.insertionSort_eq (buildRows_sorted vs k)

/-- In-place update applied to a retained member row by the upsert path's
value reconciliation (`dict_type` and `label` are `None` there, `status` is
always supplied). -/
def uRow (G : Int) (uv : List String) (en : Bool) (o : DictOptionRow) : DictOptionRow :=
  if o.option_group_id == G && uv.contains o.value then { o with status := en } else o

/-- Rows surviving the reconciliation's deletes. -/
def keepRow (G : Int) (uv : List String) (o : DictOptionRow) : Bool :=
  !(o.option_group_id == G && !uv.contains o.value)

theorem uRow_rowId (G : Int) (uv : List String) (en : Bool) (o : DictOptionRow) :
    (uRow G uv en o).rowId = o.rowId := by
  rw [uRow]; split <;> rfl

theorem uRow_gid (G : Int) (uv : List String) (en : Bool) (o : DictOptionRow) :
    (uRow G uv en o).option_group_id = o.option_group_id := by
  rw [uRow]; split <;> rfl

theorem uRow_value (G : Int) (uv : List String) (en : Bool) (o : DictOptionRow) :
    (uRow G uv en o).value = o.value := by
  rw [uRow]; split <;> rfl

theorem uRow_label (G : Int) (uv : List String) (en : Bool) (o : DictOptionRow) :
    (uRow G uv en o).label = o.label := by
  rw [uRow]; split <;> rfl

theorem uRow_dtid (G : Int) (uv : List String) (en : Bool) (o : DictOptionRow) :
    (uRow G uv en o).dict_type_id = o.dict_type_id := by
  rw [uRow]; split <;> rfl

/-- The values the reconciliation must insert: unique incoming values with no
existing member row. -/
def reconToCreate (st : Store) (G : Int) (vs : List String) : List String :=
  (dedupFirst vs).filter (fun v =>
    !((st.options.filter (fun o => o.option_group_id == G)).map (fun o => o.value)).contains v)

/-- The option rows after the upsert path's value reconciliation commits. -/
def reconOptions (st : Store) (G : Int) (dtid : Nat) (lbl : String) (en : Bool)
    (vs : List String) : List DictOptionRow :=
  (st.options.map (fun o => uRow G (dedupFirst vs) en o)).filter
      (fun o => keepRow G (dedupFirst vs) o) ++
    buildRows G dtid lbl en st.fresh (reconToCreate st G vs)

/-- The store after the upsert path's value reconciliation commits. -/
def reconStore (st : Store) (G : Int) (dtid : Nat) (lbl : String) (en : Bool)
    (vs : List String) : Store :=
  { st with
      options := reconOptions st G dtid lbl en vs,
      fresh := st.fresh + (reconToCreate st G vs).length }

/-- The response record of the upsert path's value reconciliation. -/
def reconResult (st : Store) (G : Int) (dtid : Nat) (lbl : String) (en : Bool)
    (vs : List String) : OptionResult :=
  { dict_type := typeNameOf st dtid, label := lbl,
    value :=
      (orderById ((reconOptions st G dtid lbl en vs).filter
        (fun o => o.option_group_id == G))).map (fun o => o.value),
    option_id := G,
    status :=
      match orderById ((reconOptions st G dtid lbl en vs).filter
          (fun o => o.option_group_id == G)) with
      | a :: _ => a.status
      | [] => en }

theorem update_internal_value_eq (st : Store) (f : DictOptionRow)
    (rest : List DictOptionRow) (vs : List String) (en : Bool) :
    update_dict_option_internal st (f :: rest)
        { dict_type := none, label := none, value := some vs, status := some en } =
      .ok (reconStore st f.option_group_id f.dict_type_id f.label en vs,
           reconResult st f.option_group_id f.dict_type_id f.label en vs) := by
  simp only [update_dict_option_internal, optTruthy, reconStore, reconResult,
    reconOptions, reconToCreate, uRow, keepRow, Option.getD_some, Option.isSome_some,
    Option.isSome_none, Bool.false_eq_true, if_false, Bool.or_false, Bool.and_true,
    Option.getD_none, Bool.true_or, Bool.or_true]

theorem reconOptions_mem_value (st : Store) (G : Int) (dtid : Nat) (lbl : String)
    (en : Bool) (vs : List String) (v : String) :
    (∃ r, r ∈ reconOptions st G dtid lbl en vs ∧ r.option_group_id = G ∧ r.value = v) ↔
      v ∈ dedupFirst vs := by
  constructor
  · rintro ⟨r, hr, hg, hv⟩
    rcases List.mem_append.mp hr with hA | hC
    · obtain ⟨h1, h2⟩ := List.mem_filter.mp hA
      have h2' : r.value ∈ dedupFirst vs := by
        by_contra hnv
        simp [keepRow, hg, hnv] at h2
      exact hv ▸ h2'
    · obtain ⟨_, _, _, _, hval, _⟩ := buildRows_fields _ _ _ hC
      rw [reconToCreate] at hval
      exact hv ▸ (List.mem_filter.mp hval).1
  · intro hv
    by_cases hexv : ∃ r0, r0 ∈ st.options ∧ r0.option_group_id = G ∧ r0.value = v
    · obtain ⟨r0, h0mem, h0g, h0v⟩ := hexv
      refine ⟨uRow G (dedupFirst vs) en r0, ?_,
        by rw [uRow_gid]; exact h0g, by rw [uRow_value]; exact h0v⟩
      apply List.mem_append_left
      rw [List.mem_filter]
      refine ⟨List.mem_map_of_mem _ h0mem, ?_⟩
      rw [keepRow, uRow_gid, uRow_value]
      simp [h0g, h0v, hv]
    · have hvc : v ∈ reconToCreate st G vs := by
        rw [reconToCreate, List.mem_filter]
        refine ⟨hv, ?_⟩
        simp only [List.elem_eq_mem, List.mem_map, List.mem_filter, beq_iff_eq,
          Bool.not_eq_eq_eq_not, Bool.not_true, decide_eq_false_iff_not]
        rintro ⟨r0, ⟨h0mem, h0g⟩, h0v⟩
        exact hexv ⟨r0, h0mem, h0g, h0v⟩
      obtain ⟨r, hrmem, hrv⟩ := buildRows_exists _ _ _ hvc
      obtain ⟨hg, _⟩ := buildRows_fields _ _ _ hrmem
      exact ⟨r, List.mem_append_right _ hrmem, hg, hrv⟩

theorem reconOptions_retains (st : Store) (G : Int) (dtid : Nat) (lbl : String)
    (en : Bool) (vs : List String) (r : DictOptionRow) (hr : r ∈ st.options)
    (hg : r.option_group_id = G) (hv : r.value ∈ dedupFirst vs) :
    ∃ r', r' ∈ reconOptions st G dtid lbl en vs ∧ r'.rowId = r.rowId ∧
      r'.value = r.value ∧ r'.option_group_id = G := by
  refine ⟨uRow G (dedupFirst vs) en r, ?_, uRow_rowId _ _ _ _,
    uRow_value _ _ _ _, by rw [uRow_gid]; exact hg⟩
  apply List.mem_append_left
  rw [List.mem_filter]
  refine ⟨List.mem_map_of_mem _ hr, ?_⟩
  rw [keepRow, uRow_gid, uRow_value]
  simp [hg, hv]

/-- The upsert handler, when a `(dict_type, label)` row exists and the value
is a nonempty list, defers to the group-wide update logic. -/
theorem upsert_update_path (st : Store) (p : DictOptionUpsert) (vs : List String)
    (dt : DictTypeRow) (ex : DictOptionRow)
    (hval : p.value = .list vs) (hvs : vs ≠ [])
    (hdt : st.types.find? (fun ty => ty.type == p.dict_type) = some dt)
    (hex : st.options.find? (fun o => o.dict_type_id == dt.id && o.label == p.label)
      = some ex) :
    upsert_dict_option st p =
      update_dict_option_internal st
        (st.options.filter (fun o => o.option_group_id == ex.option_group_id))
        { dict_type := none, label := none, value := some vs, status := some p.status } := by
  have hempty : vs.isEmpty = false := by
    cases vs with
    | nil => exact absurd rfl hvs
    | cons a l => rfl
  simp only [upsert_dict_option, hdt, hex, hval, hempty, Bool.false_eq_true, if_false]

theorem mem_filter_group (st : Store) (ex : DictOptionRow)
    (hmem : ex ∈ st.options) :
    ex ∈ st.options.filter (fun o => o.option_group_id == ex.option_group_id) := by
  rw [List.mem_filter]
  exact ⟨hmem, by simp⟩

/-- C1.  When `upsert_dict_option` locates an existing group through
`(dict_type, label)` and receives a nonempty value list, it reconciles the
member set: afterwards the group's member value set equals the deduplicated
incoming value set (values absent from the new set are deleted, new values
are inserted under the same group id, retained values keep their rows), and
the returned `option_id` is the group id the located row already had. -/
theorem upsert_existing_group_reconciles
    (st : Store) (p : DictOptionUpsert) (vs : List String) (dt : DictTypeRow)
    (ex : DictOptionRow)
    (hval : p.value = .list vs) (hvs : vs ≠ [])
    (hdt : st.types.find? (fun ty => ty.type == p.dict_type) = some dt)
    (hex : st.options.find? (fun o => o.dict_type_id == dt.id && o.label == p.label)
      = some ex) :
    ∃ st' res, upsert_dict_option st p = .ok (st', res) ∧
      res.option_id = ex.option_group_id ∧
      (∀ v, (∃ r, r ∈ st'.options ∧ r.option_group_id = ex.option_group_id ∧ r.value = v)
          ↔ v ∈ dedupFirst vs) ∧
      (∀ r, r ∈ st.options → r.option_group_id = ex.option_group_id →
        r.value ∈ dedupFirst vs →
        ∃ r', r' ∈ st'.options ∧ r'.rowId = r.rowId ∧ r'.value = r.value ∧
          r'.option_group_id = ex.option_group_id) := by
  have hrw := upsert_update_path st p vs dt ex hval hvs hdt hex
  have hne : st.options.filter (fun o => o.option_group_id == ex.option_group_id) ≠ [] := by
    intro hempty
    have := mem_filter_group st ex (List.mem_of_find?_eq_some hex)
    rw [hempty] at this
    cases this
  obtain ⟨f, rest, hfr⟩ := List.exists_cons_of_ne_nil hne
  have hfG : f.option_group_id = ex.option_group_id := by
    have hfmem : f ∈ st.options.filter (fun o => o.option_group_id == ex.option_group_id) := by
      rw [hfr]; exact List.mem_cons_self _ _
    have := (List.mem_filter.mp hfmem).2
    simpa using this
  rw [hfr, update_internal_value_eq] at hrw
  rw [hfG] at hrw
  refine ⟨_, _, hrw, rfl, ?_, ?_⟩
  · intro v
    exact reconOptions_mem_value st ex.option_group_id f.dict_type_id f.label p.status vs v
  · intro r hr hg hv
    exact reconOptions_retains st ex.option_group_id f.dict_type_id f.label p.status vs r hr hg hv

/-- Concrete instance of `upsert_existing_group_reconciles`: the spec's
scenario — a `("freight_code", "rate")` group holding `-"M", "N"-` upserted
with `["N", "X"]` keeps group id 100; the member set becomes `-"N", "X"-`. -/
theorem upsert_existing_group_reconciles_witness :
    ∃ st' res, upsert_dict_option
        ⟨[⟨1, "freight_code", "fn"⟩],
         [⟨0, 100, 1, "rate", "M", true, 0⟩, ⟨1, 100, 1, "rate", "N", true, 1⟩], 2, 101⟩
        ⟨"freight_code", "rate", .list ["N", "X"], true⟩ = .ok (st', res) ∧
      res.option_id = 100 ∧
      (∀ v, (∃ r, r ∈ st'.options ∧ r.option_group_id = 100 ∧ r.value = v)
          ↔ v ∈ dedupFirst ["N", "X"]) ∧
      (∀ r, r ∈ [(⟨0, 100, 1, "rate", "M", true, 0⟩ : DictOptionRow),
                 ⟨1, 100, 1, "rate", "N", true, 1⟩] →
        r.option_group_id = 100 → r.value ∈ dedupFirst ["N", "X"] →
        ∃ r', r' ∈ st'.options ∧ r'.rowId = r.rowId ∧ r'.value = r.value ∧
          r'.option_group_id = 100) :=
  upsert_existing_group_reconciles _ _ ["N", "X"] ⟨1, "freight_code", "fn"⟩
    ⟨0, 100, 1, "rate", "M", true, 0⟩ rfl (by decide) rfl rfl

theorem upsert_create_path (st : Store) (p : DictOptionUpsert) (dt : DictTypeRow)
    (hdt : st.types.find? (fun ty => ty.type == p.dict_type) = some dt)
    (hnone : st.options.find? (fun o => o.dict_type_id == dt.id && o.label == p.label)
      = none) :
    upsert_dict_option st p = .ok
      ({ st with
          options := st.options ++
            buildRows st.nextGroupId dt.id p.label p.status st.fresh
              (dedupFirst p.value.toPyList),
          fresh := st.fresh + (dedupFirst p.value.toPyList).length,
          nextGroupId := st.nextGroupId + 1 },
       { dict_type := dt.type, label := p.label,
         value := (buildRows st.nextGroupId dt.id p.label p.status st.fresh
           (dedupFirst p.value.toPyList)).map (fun o => o.value),
         option_id := st.nextGroupId, status := p.status }) := by
  simp only [upsert_dict_option, hdt, hnone]

theorem upsert_creates_general (st : Store) (p : DictOptionUpsert) (dt : DictTypeRow)
    (hdt : st.types.find? (fun ty => ty.type == p.dict_type) = some dt)
    (hnone : st.options.find? (fun o => o.dict_type_id == dt.id && o.label == p.label)
      = none)
    (hfresh : ∀ r ∈ st.options, r.option_group_id ≠ st.nextGroupId) :
    ∃ st' res, upsert_dict_option st p = .ok (st', res) ∧
      res.option_id = st.nextGroupId ∧
      res.value = dedupFirst p.value.toPyList ∧
      ((st'.options.filter (fun o => o.option_group_id == st.nextGroupId)).map
        (fun o => o.value)) = dedupFirst p.value.toPyList ∧
      (∀ r, r ∈ st'.options → r.option_group_id = st.nextGroupId →
        r.label = p.label ∧ r.status = p.status ∧ r.dict_type_id = dt.id ∧
          r.value ∈ dedupFirst p.value.toPyList) := by
  rw [upsert_create_path st p dt hdt hnone]
  refine ⟨_, _, rfl, rfl, buildRows_map_value _ _, ?_, ?_⟩
  · show ((st.options ++ buildRows st.nextGroupId dt.id p.label p.status st.fresh
      (dedupFirst p.value.toPyList)).filter
        (fun o => o.option_group_id == st.nextGroupId)).map (fun o => o.value)
      = dedupFirst p.value.toPyList
    rw [List.filter_append]
    have h1 : st.options.filter (fun o => o.option_group_id == st.nextGroupId) = [] := by
      rw [List.filter_eq_nil_iff]
      intro a ha
      simpa using hfresh a ha
    have h2 : (buildRows st.nextGroupId dt.id p.label p.status st.fresh
        (dedupFirst p.value.toPyList)).filter
          (fun o => o.option_group_id == st.nextGroupId) =
        buildRows st.nextGroupId dt.id p.label p.status st.fresh
          (dedupFirst p.value.toPyList) := by
      rw [List.filter_eq_self]
      intro a ha
      simpa using (buildRows_fields _ _ _ ha).1
    rw [h1, h2, List.nil_append, buildRows_map_value]
  · intro r hr hg
    show r.label = p.label ∧ r.status = p.status ∧ r.dict_type_id = dt.id ∧
      r.value ∈ dedupFirst p.value.toPyList
    rcases List.mem_append.mp hr with h | h
    · exact absurd hg (hfresh r h)
    · obtain ⟨_, h2, h3, h4, h5, _⟩ := buildRows_fields _ _ _ h
      exact ⟨h3, h4, h2, h5⟩

/-- C6.  When no `(dict_type, label)` group exists, the upsert creates exactly
one group: the member values are the input list deduplicated preserving first
occurrence, and every created row shares the one freshly generated group id,
the label, and the enabled flag. -/
theorem upsert_creates_group (st : Store) (p : DictOptionUpsert) (vs : List String)
    (dt : DictTypeRow) (hval : p.value = .list vs)
    (hdt : st.types.find? (fun ty => ty.type == p.dict_type) = some dt)
    (hnone : st.options.find? (fun o => o.dict_type_id == dt.id && o.label == p.label)
      = none)
    (hfresh : ∀ r ∈ st.options, r.option_group_id ≠ st.nextGroupId) :
    ∃ st' res, upsert_dict_option st p = .ok (st', res) ∧
      res.option_id = st.nextGroupId ∧
      res.value = dedupFirst vs ∧
      ((st'.options.filter (fun o => o.option_group_id == st.nextGroupId)).map
        (fun o => o.value)) = dedupFirst vs ∧
      (∀ r, r ∈ st'.options → r.option_group_id = st.nextGroupId →
        r.label = p.label ∧ r.status = p.status ∧ r.dict_type_id = dt.id) := by
  obtain ⟨st', res, h1, h2, h3, h4, h5⟩ := upsert_creates_general st p dt hdt hnone hfresh
  rw [hval] at h3 h4
  exact ⟨st', res, h1, h2, h3, h4, fun r hr hg => ⟨(h5 r hr hg).1, (h5 r hr hg).2.1,
    (h5 r hr hg).2.2.1⟩⟩

/-- Concrete instance of `upsert_creates_group`: creating
`("freight_code", "rate")` from `["M", "N", "M"]` yields one group, id 100,
with member values `["M", "N"]`. -/
theorem upsert_creates_group_witness :
    ∃ st' res, upsert_dict_option
        ⟨[⟨1, "freight_code", "fn"⟩], [], 0, 100⟩
        ⟨"freight_code", "rate", .list ["M", "N", "M"], true⟩ = .ok (st', res) ∧
      res.option_id = 100 ∧
      res.value = ["M", "N"] ∧
      ((st'.options.filter (fun o => o.option_group_id == 100)).map
        (fun o => o.value)) = ["M", "N"] ∧
      (∀ r, r ∈ st'.options → r.option_group_id = 100 →
        r.label = "rate" ∧ r.status = true ∧ r.dict_type_id = 1) :=
  upsert_creates_group ⟨[⟨1, "freight_code", "fn"⟩], [], 0, 100⟩
    ⟨"freight_code", "rate", .list ["M", "N", "M"], true⟩ ["M", "N", "M"]
    ⟨1, "freight_code", "fn"⟩ rfl rfl rfl (by intro r hr; cases hr)

/-- C9.  The upsert body's `value` also admits a bare string; on the create
path `dict.fromkeys(value)` then iterates the string character by character,
so one member row is created per distinct character of `s` in first-occurrence
order — not a single row holding `s`. -/
theorem upsert_string_value_iterates (st : Store) (p : DictOptionUpsert) (s : String)
    (dt : DictTypeRow) (hval : p.value = .str s)
    (hdt : st.types.find? (fun ty => ty.type == p.dict_type) = some dt)
    (hnone : st.options.find? (fun o => o.dict_type_id == dt.id && o.label == p.label)
      = none)
    (hfresh : ∀ r ∈ st.options, r.option_group_id ≠ st.nextGroupId) :
    ∃ st' res, upsert_dict_option st p = .ok (st', res) ∧
      res.option_id = st.nextGroupId ∧
      res.value = dedupFirst (s.toList.map (fun c => String.mk [c])) ∧
      ((st'.options.filter (fun o => o.option_group_id == st.nextGroupId)).map
        (fun o => o.value)) = dedupFirst (s.toList.map (fun c => String.mk [c])) ∧
      (∀ r, r ∈ st'.options → r.option_group_id = st.nextGroupId →
        ∃ c, c ∈ s.toList ∧ r.value = String.mk [c]) := by
  obtain ⟨st', res, h1, h2, h3, h4, h5⟩ := upsert_creates_general st p dt hdt hnone hfresh
  rw [hval] at h3 h4
  refine ⟨st', res, h1, h2, h3, h4, ?_⟩
  intro r hr hg
  have hv := (h5 r hr hg).2.2.2
  rw [hval] at hv
  have : r.value ∈ (s.toList.map (fun c => String.mk [c])) := by
    have := mem_dedupFirst.mp hv
    simpa [PyValue.toPyList] using this
  obtain ⟨c, hc, hcv⟩ := List.mem_map.mp this
  exact ⟨c, hc, hcv.symm⟩

/-- Concrete instance of `upsert_string_value_iterates`: a bare string value
`"AB"` creates member values `["A", "B"]`, not one row holding `"AB"`. -/
theorem upsert_string_value_iterates_witness :
    ∃ st' res, upsert_dict_option
        ⟨[⟨1, "freight_code", "fn"⟩], [], 0, 100⟩
        ⟨"freight_code", "rate", .str "AB", true⟩ = .ok (st', res) ∧
      res.option_id = 100 ∧
      res.value = ["A", "B"] ∧
      ((st'.options.filter (fun o => o.option_group_id == 100)).map
        (fun o => o.value)) = ["A", "B"] ∧
      (∀ r, r ∈ st'.options → r.option_group_id = 100 →
        ∃ c, c ∈ "AB".toList ∧ r.value = String.mk [c]) :=
  upsert_string_value_iterates ⟨[⟨1, "freight_code", "fn"⟩], [], 0, 100⟩
    ⟨"freight_code", "rate", .str "AB", true⟩ "AB"
    ⟨1, "freight_code", "fn"⟩ rfl rfl rfl (by intro r hr; cases hr)

/-- C10.  `delete_dict_option_by_id` evaluates `int(option_id)` before any
lookup: a non-integer argument raises an unhandled `ValueError` (not the
typed `NotFoundException`) and deletes nothing, while the typed not-found
error occurs only for integer arguments matching no member row. -/
theorem delete_by_id_error_paths (st : Store) (s : String) :
    (pyIntOfString s = none → delete_dict_option_by_id st s = .error .valueError) ∧
    (∀ msg, delete_dict_option_by_id st s = .error (.notFound msg) →
      ∃ n, pyIntOfString s = some n ∧ ∀ r ∈ st.options, r.option_group_id ≠ n) := by
  constructor
  · intro h
    rw [delete_dict_option_by_id, h]
  · intro msg h
    rw [delete_dict_option_by_id] at h
    cases hp : pyIntOfString s with
    | none => rw [hp] at h; simp at h
    | some n =>
      rw [hp] at h
      by_cases he : (st.options.filter (fun o => o.option_group_id == n)).isEmpty = true
      · refine ⟨n, rfl, ?_⟩
        intro r hr
        rw [List.isEmpty_iff] at he
        have := List.filter_eq_nil_iff.mp he r hr
        simpa using this
      · simp [he] at h

/-- Concrete instance of `delete_by_id_error_paths`: the non-numeric argument
`"abc"` yields the generic `ValueError`, not the typed not-found error. -/
theorem delete_by_id_error_paths_witness :
    delete_dict_option_by_id ⟨[], [⟨0, 5, 1, "l", "v", true, 0⟩], 1, 6⟩ "abc"
      = .error .valueError :=
  (delete_by_id_error_paths ⟨[], [⟨0, 5, 1, "l", "v", true, 0⟩], 1, 6⟩ "abc").1 rfl

/-- Insert a key into an insertion-ordered key list unless already present
(the key behavior of the Python `dict` used by the grouping loop). -/
def insertIdem (l : List Int) (x : Int) : List Int :=
  if x ∈ l then l else l ++ [x]

theorem foldl_addRow_map_ids (st : Store) :
    ∀ (rows : List DictOptionRow) (acc : List GroupItem),
      ((rows.foldl (addRow st) acc).map (fun gi => gi.option_id)) =
        rows.foldl (fun l o => insertIdem l o.option_group_id)
          (acc.map (fun gi => gi.option_id)) := by
  intro rows
  induction rows with
  | nil => intro acc; rfl
  | cons o rows ih =>
    intro acc
    rw [List.foldl_cons, List.foldl_cons, ih]
    have hstep : (addRow st acc o).map (fun gi => gi.option_id) =
        insertIdem (acc.map (fun gi => gi.option_id)) o.option_group_id := by
      rw [addRow, insertIdem]
      by_cases hmem : o.option_group_id ∈ acc.map (fun gi => gi.option_id)
      · have hany : (acc.any (fun gi => gi.option_id == o.option_group_id)) = true := by
          rw [List.any_eq_true]
          obtain ⟨gi, hgi, hgieq⟩ := List.mem_map.mp hmem
          exact ⟨gi, hgi, by simp [hgieq]⟩
        rw [hany, if_pos rfl, if_pos hmem, List.map_map]
        apply List.map_congr_left
        intro gi _
        show (if gi.option_id == o.option_group_id then
          { gi with value := gi.value ++ [o.value] } else gi).option_id = gi.option_id
        split <;> rfl
      · have hany : (acc.any (fun gi => gi.option_id == o.option_group_id)) = false := by
          rw [List.any_eq_false]
          intro gi hgi
          simp only [beq_iff_eq]
          intro heq
          exact hmem (List.mem_map.mpr ⟨gi, hgi, heq⟩)
        rw [hany, if_neg (by simp), if_neg hmem, List.map_append]
        rfl
    rw [hstep]

theorem foldl_insertIdem_nodup :
    ∀ (xs : List Int) (l : List Int), l.Nodup → (xs.foldl insertIdem l).Nodup := by
  intro xs
  induction xs with
  | nil => intro l hl; exact hl
  | cons x xs ih =>
    intro l hl
    rw [List.foldl_cons]
    apply ih
    rw [insertIdem]
    by_cases hx : x ∈ l
    · rw [if_pos hx]; exact hl
    · rw [if_neg hx]
      rw [List.nodup_append]
      exact ⟨hl, List.nodup_singleton _, by simpa using hx⟩

theorem foldl_insertIdem_toFinset :
    ∀ (xs : List Int) (l : List Int),
      (xs.foldl insertIdem l).toFinset = l.toFinset ∪ xs.toFinset := by
  intro xs
  induction xs with
  | nil => intro l; simp
  | cons x xs ih =>
    intro l
    rw [List.foldl_cons, ih]
    by_cases hx : x ∈ l
    · rw [insertIdem, if_pos hx]
      ext a
      simp only [Finset.mem_union, List.mem_toFinset, List.toFinset_cons, Finset.mem_insert]
      constructor
      · rintro (h | h)
        · exact Or.inl h
        · exact Or.inr (Or.inr h)
      · rintro (h | h | h)
        · exact Or.inl h
        · exact Or.inl (h ▸ hx)
        · exact Or.inr h
    · rw [insertIdem, if_neg hx]
      ext a
      simp only [Finset.mem_union, List.mem_toFinset, List.toFinset_cons, Finset.mem_insert,
        List.toFinset_append, List.mem_append, List.mem_singleton]
      tauto

theorem groupedList_length (st : Store) (q : DictOptionQuery) :
    (groupedList st q).length =
      ((st.options.filter (rowPasses st q)).map
        (fun o => o.option_group_id)).toFinset.card := by
  have h1 : (groupedList st q).map (fun gi => gi.option_id) =
      (sortedRows st q).foldl (fun l o => insertIdem l o.option_group_id) [] :=
    foldl_addRow_map_ids st (sortedRows st q) []
  have h2 : (sortedRows st q).foldl (fun l o => insertIdem l o.option_group_id) [] =
      ((sortedRows st q).map (fun o => o.option_group_id)).foldl insertIdem [] :=
    (List.foldl_map _ _ _ _).symm
  have hnd : (((sortedRows st q).map (fun o => o.option_group_id)).foldl insertIdem
      ([] : List Int)).Nodup :=
    foldl_insertIdem_nodup _ _ List.nodup_nil
  have hlen : (groupedList st q).length =
      (((sortedRows st q).map (fun o => o.option_group_id)).foldl insertIdem
        ([] : List Int)).length := by
    rw [← List.length_map (groupedList st q) (fun gi => gi.option_id), h1, h2]
  rw [hlen, ← List.toFinset_card_of_nodup hnd, foldl_insertIdem_toFinset]
  have hperm : ((sortedRows st q).map (fun o => o.option_group_id)).Perm
      ((st.options.filter (rowPasses st q)).map (fun o => o.option_group_id)) :=
    (List.perm_insertionSort _ _).map _
  rw [List.toFinset_eq_of_perm _ _ hperm]
  simp

/-- C8.  `get_dict_options` returns one logical item per group: the reported
total is the number of distinct group ids among the filtered rows, and
pagination applies to the grouped list — with `page = 2, page_size = 1` over
exactly three groups, the single returned item is the second group of the
grouped ordering (rows sorted by creation time descending, groups in first-
appearance order), never a row-level slice. -/
theorem get_dict_options_grouped (st : Store) (dt : Option String) (stq : Option Bool)
    (page page_size : Nat) :
    (get_dict_options st ⟨dt, stq, page, page_size⟩).1 =
      ((st.options.filter (rowPasses st ⟨dt, stq, page, page_size⟩)).map
        (fun o => o.option_group_id)).toFinset.card ∧
    ((groupedList st ⟨dt, stq, 2, 1⟩).length = 3 →
      ∃ g0 g1 g2, groupedList st ⟨dt, stq, 2, 1⟩ = [g0, g1, g2] ∧
        get_dict_options st ⟨dt, stq, 2, 1⟩ = (3, [g1])) := by
  constructor
  · exact groupedList_length st _
  · intro h3
    obtain ⟨g0, g1, g2, hL⟩ := List.length_eq_three.mp h3
    refine ⟨g0, g1, g2, hL, ?_⟩
    show ((groupedList st ⟨dt, stq, 2, 1⟩).length,
      ((groupedList st ⟨dt, stq, 2, 1⟩).drop ((2 - 1) * 1)).take 1) = (3, [g1])
    rw [hL]
    rfl

/-- Concrete instance of `get_dict_options_grouped`: three groups (ids 12, 11,
10 in creation-descending order), `page = 2, page_size = 1` returns exactly
the middle group. -/
theorem get_dict_options_grouped_witness :
    ∃ g0 g1 g2, groupedList
        ⟨[⟨1, "freight_code", "fn"⟩],
         [⟨0, 10, 1, "a", "x", true, 0⟩, ⟨1, 10, 1, "a", "y", true, 1⟩,
          ⟨2, 11, 1, "b", "x", true, 2⟩, ⟨3, 12, 1, "c", "z", true, 3⟩], 4, 13⟩
        ⟨none, none, 2, 1⟩ = [g0, g1, g2] ∧
      get_dict_options
        ⟨[⟨1, "freight_code", "fn"⟩],
         [⟨0, 10, 1, "a", "x", true, 0⟩, ⟨1, 10, 1, "a", "y", true, 1⟩,
          ⟨2, 11, 1, "b", "x", true, 2⟩, ⟨3, 12, 1, "c", "z", true, 3⟩], 4, 13⟩
        ⟨none, none, 2, 1⟩ = (3, [g1]) :=
  (get_dict_options_grouped
    ⟨[⟨1, "freight_code", "fn"⟩],
     [⟨0, 10, 1, "a", "x", true, 0⟩, ⟨1, 10, 1, "a", "y", true, 1⟩,
      ⟨2, 11, 1, "b", "x", true, 2⟩, ⟨3, 12, 1, "c", "z", true, 3⟩], 4, 13⟩
    none none 2 1).2 (by rfl)

theorem map_eq_self_of_mem {α : Type} {l : List α} {f : α → α}
    (h : ∀ x ∈ l, f x = x) : l.map f = l := by
  induction l with
  | nil => rfl
  | cons a l ih =>
    rw [List.map_cons, h a (List.mem_cons_self _ _), ih]
    intro x hx
    exact h x (List.mem_cons_of_mem _ hx)

theorem row_status_update_self (o : DictOptionRow) (en : Bool) (h : o.status = en) :
    { o with status := en } = o := by
  cases o
  cases h
  rfl

/-- `(dict_type_id, label)` behaves as a natural key on the store: the rows
carrying a key are exactly the rows of one group.  This is the invariant the
upsert/create handlers maintain (create only fires when no key row exists and
stamps all new rows with one fresh group id; the upsert update path never
rewrites the locating label). -/
def KeyCoherent (st : Store) (dtid : Nat) (lbl : String) : Prop :=
  ∀ r ∈ st.options, (r.dict_type_id = dtid ∧ r.label = lbl) →
    ∀ q ∈ st.options,
      (q.option_group_id = r.option_group_id ↔ (q.dict_type_id = dtid ∧ q.label = lbl))

/-- A second upsert against a store whose group `G` already agrees with the
incoming deduplicated value set (all member rows enabled as requested, every
unique value present, the key rows exactly the group) is a no-op: it returns
the same store, and its response is the group read back unchanged. -/
theorem idempotent_second_call
    (st1 : Store) (p : DictOptionUpsert) (vs : List String) (dt : DictTypeRow) (G : Int)
    (hval : p.value = .list vs) (hvs : vs ≠ [])
    (hdt1 : st1.types.find? (fun ty => ty.type == p.dict_type) = some dt)
    (F1 : ∀ r ∈ st1.options, r.option_group_id = G →
      r.status = p.status ∧ r.value ∈ dedupFirst vs ∧ r.dict_type_id = dt.id ∧
        r.label = p.label)
    (F2 : ∀ r ∈ st1.options, r.dict_type_id = dt.id → r.label = p.label →
      r.option_group_id = G)
    (F3 : ∀ v ∈ dedupFirst vs, ∃ r, r ∈ st1.options ∧ r.option_group_id = G ∧
      r.value = v) :
    ∃ res2, upsert_dict_option st1 p = .ok (st1, res2) ∧ res2.option_id = G ∧
      res2.value = (orderById (st1.options.filter
        (fun o => o.option_group_id == G))).map (fun o => o.value) := by
  have hU : dedupFirst vs ≠ [] := dedupFirst_ne_nil hvs
  obtain ⟨u, U', hUu⟩ := List.exists_cons_of_ne_nil hU
  obtain ⟨r, hrmem, hrG, hrv⟩ := F3 u (by rw [hUu]; exact List.mem_cons_self _ _)
  have hkey_r := F1 r hrmem hrG
  cases hex1 : st1.options.find? (fun o => o.dict_type_id == dt.id && o.label == p.label) with
  | none =>
    exfalso
    have := List.find?_eq_none.mp hex1 r hrmem
    simp [hkey_r.2.2.1, hkey_r.2.2.2] at this
  | some ex2 =>
    have hex2mem := List.mem_of_find?_eq_some hex1
    have hex2pred := List.find?_some hex1
    have hex2key : ex2.dict_type_id = dt.id ∧ ex2.label = p.label := by
      simpa using hex2pred
    have hex2G : ex2.option_group_id = G := F2 ex2 hex2mem hex2key.1 hex2key.2
    have hpath := upsert_update_path st1 p vs dt ex2 hval hvs hdt1 hex1
    rw [hex2G] at hpath
    have hrne : st1.options.filter (fun o => o.option_group_id == G) ≠ [] := by
      intro hemp
      have hin : r ∈ st1.options.filter (fun o => o.option_group_id == G) := by
        rw [List.mem_filter]
        exact ⟨hrmem, by simp [hrG]⟩
      rw [hemp] at hin
      cases hin
    obtain ⟨f2, rest2, hf2⟩ := List.exists_cons_of_ne_nil hrne
    have hf2in : f2 ∈ st1.options.filter (fun o => o.option_group_id == G) := by
      rw [hf2]
      exact List.mem_cons_self _ _
    have hf2mem : f2 ∈ st1.options := (List.mem_filter.mp hf2in).1
    have hf2G : f2.option_group_id = G := by
      have := (List.mem_filter.mp hf2in).2
      simpa using this
    have hf2facts := F1 f2 hf2mem hf2G
    rw [hf2, update_internal_value_eq, hf2G, hf2facts.2.2.1, hf2facts.2.2.2] at hpath
    have hmapid : st1.options.map (fun o => uRow G (dedupFirst vs) p.status o)
        = st1.options := by
      apply map_eq_self_of_mem
      intro o ho
      rw [uRow]
      by_cases hoG : o.option_group_id = G
      · have hof := F1 o ho hoG
        have hcond : (o.option_group_id == G && (dedupFirst vs).contains o.value) = true := by
          simp [hoG, hof.2.1]
        rw [if_pos hcond]
        exact row_status_update_self o p.status hof.1
      · rw [if_neg (by simp [hoG])]
    have hfilterself : st1.options.filter (fun o => keepRow G (dedupFirst vs) o)
        = st1.options := by
      rw [List.filter_eq_self]
      intro o ho
      rw [keepRow]
      by_cases hoG : o.option_group_id = G
      · have hof := F1 o ho hoG
        simp [hoG, hof.2.1]
      · simp [hoG]
    have htc : reconToCreate st1 G vs = [] := by
      rw [reconToCreate, List.filter_eq_nil_iff]
      intro v hv
      obtain ⟨r0, h0mem, h0G, h0v⟩ := F3 v hv
      simp only [List.elem_eq_mem, List.mem_map, List.mem_filter, beq_iff_eq,
        Bool.not_eq_eq_eq_not, Bool.not_true, decide_eq_false_iff_not, not_not,
        Bool.not_eq_true, decide_eq_true_eq] at *
      exact ⟨r0, ⟨h0mem, h0G⟩, h0v⟩
    have hreconopts : reconOptions st1 G dt.id p.label p.status vs = st1.options := by
      rw [reconOptions, hmapid, hfilterself, htc]
      simp [buildRows]
    have hrecon : reconStore st1 G dt.id p.label p.status vs = st1 := by
      rw [reconStore, hreconopts, htc]
      rfl
    rw [hrecon] at hpath
    refine ⟨_, hpath, rfl, ?_⟩
    show (orderById ((reconOptions st1 G dt.id p.label p.status vs).filter
      (fun o => o.option_group_id == G))).map (fun o => o.value) = _
    rw [hreconopts]

/-- C7.  Calling the upsert twice in succession with identical arguments
(type key, label, nonempty value list, enabled flag) is idempotent on a store
where `(dict_type, label)` is a coherent natural key and the next group id is
fresh: the second call returns the very same store, the same group identifier,
and the same member value list as the first call produced. -/
theorem upsert_idempotent
    (st : Store) (p : DictOptionUpsert) (vs : List String) (dt : DictTypeRow)
    (hval : p.value = .list vs) (hvs : vs ≠ [])
    (hdt : st.types.find? (fun ty => ty.type == p.dict_type) = some dt)
    (hkc : KeyCoherent st dt.id p.label)
    (hfresh : ∀ r ∈ st.options, r.option_group_id ≠ st.nextGroupId)
    (st1 : Store) (res1 : OptionResult)
    (h1 : upsert_dict_option st p = .ok (st1, res1)) :
    ∃ res2, upsert_dict_option st1 p = .ok (st1, res2) ∧
      res2.option_id = res1.option_id ∧ res2.value = res1.value := by
  cases hex : st.options.find? (fun o => o.dict_type_id == dt.id && o.label == p.label) with
  | none =>
    have hc := upsert_create_path st p dt hdt hex
    simp only [hval, PyValue.toPyList] at hc
    rw [h1] at hc
    injection hc with hpr
    injection hpr with h1a h1b
    subst h1a
    subst h1b
    have hnokey : ∀ r ∈ st.options, ¬(r.dict_type_id = dt.id ∧ r.label = p.label) := by
      intro r hr hk
      have := List.find?_eq_none.mp hex r hr
      simp [hk.1, hk.2] at this
    obtain ⟨res2, heq, hid, hv2⟩ :=
      idempotent_second_call
        { st with
            options := st.options ++ buildRows st.nextGroupId dt.id p.label p.status
              st.fresh (dedupFirst vs),
            fresh := st.fresh + (dedupFirst vs).length,
            nextGroupId := st.nextGroupId + 1 }
        p vs dt st.nextGroupId hval hvs hdt
        (by
          intro r hr hrG
          rcases List.mem_append.mp hr with h | h
          · exact absurd hrG (hfresh r h)
          · obtain ⟨hg, hdtid, hlbl, hstat, hvmem, _⟩ := buildRows_fields _ _ _ h
            exact ⟨hstat, hvmem, hdtid, hlbl⟩)
        (by
          intro r hr hk1 hk2
          rcases List.mem_append.mp hr with h | h
          · exact absurd ⟨hk1, hk2⟩ (hnokey r h)
          · exact (buildRows_fields _ _ _ h).1)
        (by
          intro v hv
          obtain ⟨r, hrmem, hrv⟩ := buildRows_exists _ _ _ hv
          exact ⟨r, List.mem_append_right _ hrmem, (buildRows_fields _ _ _ hrmem).1, hrv⟩)
    have hfilterE : ((st.options ++ buildRows st.nextGroupId dt.id p.label p.status
        st.fresh (dedupFirst vs)).filter
          (fun o => o.option_group_id == st.nextGroupId)) =
        buildRows st.nextGroupId dt.id p.label p.status st.fresh (dedupFirst vs) := by
      rw [List.filter_append]
      have h1' : st.options.filter (fun o => o.option_group_id == st.nextGroupId) = [] := by
        rw [List.filter_eq_nil_iff]
        intro a ha
        simpa using hfresh a ha
      have h2' : (buildRows st.nextGroupId dt.id p.label p.status st.fresh
          (dedupFirst vs)).filter (fun o => o.option_group_id == st.nextGroupId) =
          buildRows st.nextGroupId dt.id p.label p.status st.fresh (dedupFirst vs) := by
        rw [List.filter_eq_self]
        intro a ha
        simpa using (buildRows_fields _ _ _ ha).1
      rw [h1', h2', List.nil_append]
    refine ⟨res2, heq, hid, ?_⟩
    rw [hv2]
    show (orderById ((st.options ++ buildRows st.nextGroupId dt.id p.label p.status
      st.fresh (dedupFirst vs)).filter
        (fun o => o.option_group_id == st.nextGroupId))).map (fun o => o.value) = _
    rw [hfilterE, orderById_buildRows]
  | some ex =>
    have hexmem := List.mem_of_find?_eq_some hex
    have hexpred := List.find?_some hex
    have hexkey : ex.dict_type_id = dt.id ∧ ex.label = p.label := by
      simpa using hexpred
    have hGrows := hkc ex hexmem hexkey
    have hrw := upsert_update_path st p vs dt ex hval hvs hdt hex
    have hne : st.options.filter (fun o => o.option_group_id == ex.option_group_id) ≠ [] := by
      intro hempty
      have := mem_filter_group st ex hexmem
      rw [hempty] at this
      cases this
    obtain ⟨f, rest, hfr⟩ := List.exists_cons_of_ne_nil hne
    have hfin : f ∈ st.options.filter (fun o => o.option_group_id == ex.option_group_id) := by
      rw [hfr]
      exact List.mem_cons_self _ _
    have hfmem : f ∈ st.options := (List.mem_filter.mp hfin).1
    have hfG : f.option_group_id = ex.option_group_id := by
      have := (List.mem_filter.mp hfin).2
      simpa using this
    have hfkey : f.dict_type_id = dt.id ∧ f.label = p.label :=
      (hGrows f hfmem).mp hfG
    rw [hfr, update_internal_value_eq, hfG, hfkey.1, hfkey.2] at hrw
    rw [h1] at hrw
    injection hrw with hpr
    injection hpr with h1a h1b
    subst h1a
    subst h1b
    obtain ⟨res2, heq, hid, hv2⟩ :=
      idempotent_second_call (reconStore st ex.option_group_id dt.id p.label p.status vs)
        p vs dt ex.option_group_id hval hvs hdt
        (by
          intro r hr hrG
          rcases List.mem_append.mp hr with h | h
          · obtain ⟨hmap, hkeep⟩ := List.mem_filter.mp h
            obtain ⟨o, homem, rfl⟩ := List.mem_map.mp hmap
            have hoG : o.option_group_id = ex.option_group_id := by
              rw [uRow_gid] at hrG
              exact hrG
            have hcv : o.value ∈ dedupFirst vs := by
              by_contra hnv
              simp [keepRow, uRow_gid, uRow_value, hoG, hnv] at hkeep
            have hokey := (hGrows o homem).mp hoG
            have hcond : (o.option_group_id == ex.option_group_id &&
                (dedupFirst vs).contains o.value) = true := by
              simp [hoG, hcv]
            refine ⟨?_, ?_, ?_, ?_⟩
            · rw [uRow, if_pos hcond]
            · rw [uRow_value]
              exact hcv
            · rw [uRow_dtid]
              exact hokey.1
            · rw [uRow_label]
              exact hokey.2
          · obtain ⟨_, hdtid, hlbl, hstat, hvmem, _⟩ := buildRows_fields _ _ _ h
            refine ⟨hstat, ?_, hdtid, hlbl⟩
            rw [reconToCreate] at hvmem
            exact (List.mem_filter.mp hvmem).1)
        (by
          intro r hr hk1 hk2
          rcases List.mem_append.mp hr with h | h
          · obtain ⟨hmap, _⟩ := List.mem_filter.mp h
            obtain ⟨o, homem, rfl⟩ := List.mem_map.mp hmap
            rw [uRow_dtid] at hk1
            rw [uRow_label] at hk2
            rw [uRow_gid]
            exact (hGrows o homem).mpr ⟨hk1, hk2⟩
          · exact (buildRows_fields _ _ _ h).1)
        (by
          intro v hv
          exact (reconOptions_mem_value st ex.option_group_id dt.id p.label
            p.status vs v).mpr hv)
    exact ⟨res2, heq, hid, hv2⟩

/-- Concrete instance of `upsert_idempotent`: creating `("freight_code",
"rate")` with `["M", "N"]` and repeating the identical call leaves the store
untouched and returns group id 100 with values `["M", "N"]` again. -/
theorem upsert_idempotent_witness :
    ∃ res2, upsert_dict_option
        ⟨[⟨1, "freight_code", "fn"⟩],
         [⟨0, 100, 1, "rate", "M", true, 0⟩, ⟨1, 100, 1, "rate", "N", true, 1⟩], 2, 101⟩
        ⟨"freight_code", "rate", .list ["M", "N"], true⟩ =
          .ok (⟨[⟨1, "freight_code", "fn"⟩],
                [⟨0, 100, 1, "rate", "M", true, 0⟩, ⟨1, 100, 1, "rate", "N", true, 1⟩],
                2, 101⟩, res2) ∧
      res2.option_id = 100 ∧ res2.value = ["M", "N"] :=
  upsert_idempotent ⟨[⟨1, "freight_code", "fn"⟩], [], 0, 100⟩
    ⟨"freight_code", "rate", .list ["M", "N"], true⟩ ["M", "N"]
    ⟨1, "freight_code", "fn"⟩ rfl (by decide) rfl
    (by intro r hr; cases hr) (by intro r hr; cases hr)
    ⟨[⟨1, "freight_code", "fn"⟩],
     [⟨0, 100, 1, "rate", "M", true, 0⟩, ⟨1, 100, 1, "rate", "N", true, 1⟩], 2, 101⟩
    ⟨"freight_code", "rate", ["M", "N"], 100, true⟩ rfl

end DictStore
